import Mathlib

/-!
Verification development for the Newton-Raphson power-flow kernel
(`pandapower/pypower/newtonpf.py`) and the short-circuit branch-current
voltage correction (`pandapower/shortcircuit/currents.py`).

The numeric float arrays of the source are embedded as lists of rationals
(`List ℚ`) and lists of rational complex numbers (`CQ`); the transcendental
primitives (complex exponential / absolute value / angle, real exponential)
and the external collaborator kernels (Jacobian assembly entries, sparse
solve, Iwamoto step, admittance/injection builders, thermal helpers) are
passed in as function parameters, so every claim quantifies over them.
The recompose round-trip and the heat-balance formula, whose content is
about the real exponential / complex argument themselves, are additionally
stated over `ℝ`/`ℂ` with Mathlib's transcendental functions.
-/

/-- Complex numbers with rational components, modelling the complex float
arrays of the power-flow kernel. -/
structure CQ where
  re : ℚ
  im : ℚ
deriving DecidableEq, Repr

instance : Zero CQ := ⟨⟨0, 0⟩⟩

instance : Add CQ := ⟨fun a b => ⟨a.re + b.re, a.im + b.im⟩⟩

instance : Neg CQ := ⟨fun a => ⟨-a.re, -a.im⟩⟩

instance : Sub CQ := ⟨fun a b => ⟨a.re - b.re, a.im - b.im⟩⟩

instance : Mul CQ := ⟨fun a b => ⟨a.re * b.re - a.im * b.im, a.re * b.im + a.im * b.re⟩⟩

/-- Complex conjugate (numpy `conj`). -/
def CQ.conj (a : CQ) : CQ := ⟨a.re, -a.im⟩

/-- Embedding of a real (rational) scalar into `CQ`. -/
def CQ.ofRat (q : ℚ) : CQ := ⟨q, 0⟩

/-- Real scalar times complex value (numpy `Vm * exp(1j * Va)` style products). -/
def CQ.scale (q : ℚ) (a : CQ) : CQ := ⟨q * a.re, q * a.im⟩

/-- Squared magnitude; comparisons of numpy `abs` against a threshold are
modelled by comparing `absSq` against the squared threshold. -/
def CQ.absSq (a : CQ) : ℚ := a.re * a.re + a.im * a.im

/-- Dot product of two complex vectors (one row of a sparse mat-vec product). -/
def dotC (xs ys : List CQ) : CQ := (List.zipWith (· * ·) xs ys).foldr (· + ·) 0

/-- Sparse matrix-vector product `Ybus * V` of the source, row by row. -/
def matVec (Ybus : List (List CQ)) (V : List CQ) : List CQ :=
  Ybus.map (fun row => dotC row V)

/-- Fancy indexing `xs[i]` with numpy's in-bounds semantics (out-of-bounds
reads, an error in numpy, default to `0` in the model). -/
def getC (xs : List CQ) (i : ℕ) : CQ := xs.getD i 0

/-- Model of `_evaluate_Fx` in `pandapower/pypower/newtonpf.py` (lines 226-235):
per-bus complex mismatch `V * conj(Ybus * V) - Sbus` (plus
`slack_weights * slack` under distributed slack), then extraction of
`r_[mis[ref].real, mis[pv].real, mis[pq].real, mis[pq].imag]` (distributed
slack) or `r_[mis[pv].real, mis[pq].real, mis[pq].imag]`. -/
def _evaluate_Fx (Ybus : List (List CQ)) (V Sbus : List CQ) (ref pv pq : List ℕ)
    (slack_weights : List ℚ) (dist_slack : Bool) (slack : ℚ) : List ℚ :=
  if dist_slack then
    let mis := List.zipWith (· + ·)
      (List.zipWith (· - ·) (List.zipWith (· * ·) V ((matVec Ybus V).map CQ.conj)) Sbus)
      (slack_weights.map (fun wi => CQ.ofRat (wi * slack)))
    (ref.map fun i => (getC mis i).re) ++ (pv.map fun i => (getC mis i).re) ++
      (pq.map fun i => (getC mis i).re) ++ (pq.map fun i => (getC mis i).im)
  else
    let mis := List.zipWith (· - ·) (List.zipWith (· * ·) V ((matVec Ybus V).map CQ.conj)) Sbus
    (pv.map fun i => (getC mis i).re) ++ (pq.map fun i => (getC mis i).re) ++
      (pq.map fun i => (getC mis i).im)

/-- Closed-form per-bus mismatch, following the specification's words:
`V_i * conj((Y . V)_i) - S_i`, with `slack_weight_i * slack` added first when
distributed slack is active. -/
def misAt (Ybus : List (List CQ)) (V Sbus : List CQ) (slack_weights : List ℚ)
    (dist_slack : Bool) (slack : ℚ) (i : ℕ) : CQ :=
  let base := getC V i * CQ.conj (dotC (Ybus.getD i []) V) - getC Sbus i
  if dist_slack then base + CQ.ofRat (slack_weights.getD i 0 * slack) else base

/-- Recompose step of the update (lines 187-189 of `newtonpf.py`):
`V = Vm * exp(1j * Va); Vm = abs(V); Va = angle(V)`, stated over `ℝ`/`ℂ`
with Mathlib's transcendental functions. -/
noncomputable def recompose (Vm Va : ℝ) : ℝ × ℝ :=
  (Complex.abs ((Vm : ℂ) * Complex.exp (Complex.I * (Va : ℂ))),
   Complex.arg ((Vm : ℂ) * Complex.exp (Complex.I * (Va : ℂ))))

/-- Temperature base constant (line 118 of `newtonpf.py`): temperatures enter
the state vector and the thermal residual rows divided by this constant. -/
def T_base : ℚ := 100

/-- Model of `_calc_T` in `newtonpf.py` (lines 213-218): steady-state conductor
temperature `t_ss = a0 + a1 * I ** 2 + a2 * I ** 4`, or the transient value
`t_ss - (t_ss - t_0_degree) * exp(-tdpf_delay_s / tau)` when a transient
delay is given.  All arrays are per-branch; `V` is unused, as in the source. -/
noncomputable def _calc_T (V : List ℂ) (I a0 a1 a2 tau : List ℝ)
    (tdpf_delay_s : Option ℝ) (t_0_degree : List ℝ) : List ℝ :=
  let t_ss := List.zipWith (· + ·)
    (List.zipWith (· + ·) a0 (List.zipWith (· * ·) a1 (I.map (· ^ 2))))
    (List.zipWith (· * ·) a2 (I.map (· ^ 4)))
  match tdpf_delay_s with
  | some d =>
      List.zipWith3 (fun ts t0i taui => ts - (ts - t0i) * Real.exp (-d / taui))
        t_ss t_0_degree tau
  | none => t_ss

/-- Model of `_evaluate_dT` in `newtonpf.py` (lines 221-223): heat-balance temperature
minus the supplied current temperature. -/
noncomputable def _evaluate_dT (V : List ℂ) (T I a0 a1 a2 tau : List ℝ)
    (tdpf_delay_s : Option ℝ) (t_0_degree : List ℝ) : List ℝ :=
  List.zipWith (· - ·) (_calc_T V I a0 a1 a2 tau tdpf_delay_s t_0_degree) T

/-- The thermal residual rows appended each iteration (lines 145-146 and
205-206 of `newtonpf.py`): `F_t / T_base` where
`F_t = _evaluate_dT(V, T, I, ...)` is called with the current temperature `T`
in original units (the source passes the scaled unknown times `T_base`). -/
noncomputable def thermalRows (V : List ℂ) (T I a0 a1 a2 tau : List ℝ)
    (tdpf_delay_s : Option ℝ) (t_0_degree : List ℝ) : List ℝ :=
  (_evaluate_dT V T I a0 a1 a2 tau tdpf_delay_s t_0_degree).map (· / (T_base : ℚ) )

/-- Per-branch heat-balance temperature exactly as the specification words it:
the steady-state value `a0 + a1 * I^2 + a2 * I^4` when no transient delay is
given, else `t_ss - (t_ss - T0) * exp(-delay / tau)`. -/
noncomputable def heatBalanceTemp (a0 a1 a2 tau t0 cur : ℝ) (delay : Option ℝ) : ℝ :=
  match delay with
  | none => a0 + a1 * cur ^ 2 + a2 * cur ^ 4
  | some d => (a0 + a1 * cur ^ 2 + a2 * cur ^ 4) -
      ((a0 + a1 * cur ^ 2 + a2 * cur ^ 4) - t0) * Real.exp (-d / tau)

/-- Per-branch thermal parameters, bundling the parallel per-branch arrays of
the source so that the appended rows can be stated branch by branch. -/
structure ThermalBranch where
  a0 : ℝ
  a1 : ℝ
  a2 : ℝ
  tau : ℝ
  t0 : ℝ
  temp : ℝ
  cur : ℝ

/-- Distributed-slack bus reclassification (lines 79-81 of `newtonpf.py`):
`if dist_slack and len(ref) > 1: pv = r_[ref[1:], pv]; ref = ref[[0]]`. -/
def partitionSlack (dist_slack : Bool) (ref pv : List ℕ) : List ℕ × List ℕ :=
  if dist_slack ∧ 1 < ref.length then (ref.take 1, ref.drop 1 ++ pv) else (ref, pv)

/-- Slice `dx[a:b]` of a numpy array. -/
def arrSlice (dx : List ℚ) (a b : ℕ) : List ℚ := (dx.drop a).take (b - a)

/-- Numpy fancy-index in-place add `xs[idx] += vals` (which numpy executes as
`xs[idx] = xs[idx] + vals`: values gathered from the original array, then
scattered). -/
def numpySetAdd (xs : List ℚ) (idx : List ℕ) (vals : List ℚ) : List ℚ :=
  (idx.zip vals).foldl (fun a iv => a.set iv.1 (xs.getD iv.1 0 + iv.2)) xs

/-- The Newton step application of `newtonpf.py` (lines 173-185), with the
segment boundaries `j1 .. j8` computed from the bus-category counts exactly as
in lines 109-116.  The external Iwamoto acceleration component
(`_iwamoto_step`, out of scope) is a function parameter receiving the step and
the current magnitude/angle arrays.  Returns `(Va, Vm, slack, T)`. -/
def applyUpdate (iwamoto tdpf dist_slack : Bool) (npv npq nref : ℕ)
    (iwStep : List ℚ → List ℚ → List ℚ → List ℚ × List ℚ)
    (pv pq : List ℕ) (dx Va Vm : List ℚ) (slack : ℚ) (T : List ℚ) :
    List ℚ × List ℚ × ℚ × List ℚ :=
  let j1 := 0
  let j2 := npv
  let j3 := j2
  let j4 := j2 + npq
  let j5 := j4
  let j6 := j4 + npq
  let j7 := j6
  let j8 := j6 + nref
  let Va1 := if npv ≠ 0 ∧ ¬iwamoto then numpySetAdd Va pv (arrSlice dx j1 j2) else Va
  let Va2 := if npq ≠ 0 ∧ ¬iwamoto then numpySetAdd Va1 pq (arrSlice dx j3 j4) else Va1
  let Vm1 := if npq ≠ 0 ∧ ¬iwamoto then numpySetAdd Vm pq (arrSlice dx j5 j6) else Vm
  let slack1 := if dist_slack then slack + (arrSlice dx j7 j8).headD 0 else slack
  let T1 := if tdpf then List.zipWith (· + ·) T (dx.drop j7) else T
  let VmVa := if iwamoto ∧ ¬tdpf then iwStep dx Vm1 Va2 else (Vm1, Va2)
  (VmVa.2, VmVa.1, slack1, T1)

/-- The plain segment-wise voltage update as the specification words it:
angle deltas added to voltage-controlled and load buses, magnitude deltas
added to load buses, according to the fixed segment boundaries.  Returns
`(Va, Vm)`. -/
def plainUpdate (npv npq : ℕ) (pv pq : List ℕ) (dx Va Vm : List ℚ) :
    List ℚ × List ℚ :=
  (numpySetAdd (numpySetAdd Va pv (arrSlice dx 0 npv)) pq (arrSlice dx npv (npv + npq)),
   numpySetAdd Vm pq (arrSlice dx (npv + npq) (npv + npq + npq)))

/-- The step application as it actually behaves, case by case: with the
acceleration step off the plain segment-wise update is applied; with
acceleration on and thermal coupling off the update is replaced by the
accelerated multiplier step (applied to the unmodified `Vm`/`Va`); with
acceleration on and thermal coupling on, the voltage state is left unchanged.
The slack and temperature segments are applied independently of the
acceleration setting. -/
def applyUpdate_spec (iwamoto tdpf dist_slack : Bool) (npv npq nref : ℕ)
    (iwStep : List ℚ → List ℚ → List ℚ → List ℚ × List ℚ)
    (pv pq : List ℕ) (dx Va Vm : List ℚ) (slack : ℚ) (T : List ℚ) :
    List ℚ × List ℚ × ℚ × List ℚ :=
  let VmVa :=
    if iwamoto then
      if tdpf then (Vm, Va) else iwStep dx Vm Va
    else
      let p := plainUpdate npv npq pv pq dx Va Vm
      (p.2, p.1)
  let slack1 := if dist_slack then
      slack + (arrSlice dx (npv + npq + npq) (npv + npq + npq + nref)).headD 0
    else slack
  let T1 := if tdpf then List.zipWith (· + ·) T (dx.drop (npv + npq + npq)) else T
  (VmVa.2, VmVa.1, slack1, T1)

/-- Infinity norm `linalg.norm(F, Inf)`: maximum absolute value of the
entries (numpy rejects an empty array; the model returns `0` there). -/
def infNorm (F : List ℚ) : ℚ := (F.map (fun x => |x|)).foldr max 0

/-- Model of `_check_for_convergence` in `newtonpf.py` (lines 238-240): the infinity
norm of the residual strictly below the tolerance. -/
def _check_for_convergence (F : List ℚ) (tol : ℚ) : Bool := decide (infNorm F < tol)

/-- The while loop of `newtonpf.py` (lines 153-208), with
`fuel = max_it - i` iterations remaining: while not converged and iterations
remain, increment the counter, run the body, and re-check convergence on the
updated state.  Returns the final state, convergence flag and counter. -/
def newtonLoop {σ : Type} (body : σ → σ) (conv : σ → Bool) :
    ℕ → ℕ → σ → σ × Bool × ℕ
  | 0, i, s => if conv s then (s, true, i) else (s, false, i)
  | fuel + 1, i, s =>
      if conv s then (s, true, i) else newtonLoop body conv fuel (i + 1) (body s)

/-- One row of the `ppci['bus']` array: the columns read by the solver
(`PD`, `SL_FAC`, `BASE_KV`). -/
structure BusRow where
  pd : ℚ
  sl_fac : ℚ
  base_kv : ℚ

/-- One row of the `ppci['gen']` array: the column read by the solver (`PG`). -/
structure GenRow where
  pg : ℚ

/-- One row of the `ppci['branch']` array: the columns read by the solver
(`BR_R`, `F_BUS`, `BR_R_OHM_PER_KM`). -/
structure BranchRow where
  br_r : ℚ
  f_bus : ℕ
  br_r_ohm_per_km : ℚ

/-- The network-data bundle `ppci` consumed by the solver. -/
structure PPCI where
  baseMVA : ℚ
  bus : List BusRow
  gen : List GenRow
  branch : List BranchRow

/-- The recognized configuration options (lines 43-60 of `newtonpf.py`).
`numba`, `use_umfpack` and `permc_spec` only select among external kernels
treated as pure functions and carry no semantics inside the core. -/
structure Options where
  tolerance_mva : ℚ
  max_iteration : ℕ
  iwamoto : Bool
  voltage_depend_loads : Bool
  dist_slack : Bool
  v_debug : Bool
  tdpf : Bool
  tdpf_delay_s : Option ℚ

/-- The external collaborators of the core (out-of-scope kernels and the
numerical primitives of numpy/scipy), supplied as pure functions:
`expi θ` models `exp(1j*θ)`, `cabs`/`carg` model complex `abs`/`angle`,
`rexp` the real exponential, `sqrt3` the constant `sqrt(3)`, and the rest
model `spsolve`, the Jacobian kernels' entries, `_iwamoto_step`, `makeSbus`,
`makeYbus`, `calc_a0_a1_a2_tau`, `get_S_flows` and `calc_I`. -/
structure Externals where
  expi : ℚ → CQ
  cabs : CQ → ℚ
  carg : CQ → ℚ
  rexp : ℚ → ℚ
  sqrt3 : ℚ
  spsolve : List (List ℚ) → List ℚ → List ℚ
  jacEntry : List (List CQ) → List CQ → ℕ → ℕ → ℚ
  jacEntryTdpf : List ℚ → ℕ → ℕ → ℚ
  iwamotoStep : List ℚ → List ℚ → List ℚ → List ℚ × List ℚ
  makeSbus : List ℚ → List CQ
  makeYbus : List BranchRow → List (List CQ) × List (List CQ) × List (List CQ)
  a0a1a2tau : List ℚ → List ℚ × List ℚ × List ℚ × List ℚ
  getSflows : List BranchRow → List (List CQ) → List (List CQ) → List CQ →
    List CQ × List CQ
  calcI : List CQ → List CQ → List ℚ

/-- Reference temperature constant `T_ref = 20` (line 119 of `newtonpf.py`). -/
def T_ref : ℚ := 20

/-- Rational mirror of `_calc_T` used inside the executable solver model; the
real exponential is supplied as the parameter `rexp`. -/
def _calc_T_q (rexp : ℚ → ℚ) (V : List CQ) (I a0 a1 a2 tau : List ℚ)
    (tdpf_delay_s : Option ℚ) (t_0_degree : List ℚ) : List ℚ :=
  let t_ss := List.zipWith (· + ·)
    (List.zipWith (· + ·) a0 (List.zipWith (· * ·) a1 (I.map (· ^ 2))))
    (List.zipWith (· * ·) a2 (I.map (· ^ 4)))
  match tdpf_delay_s with
  | some d =>
      List.zipWith3 (fun ts t0i taui => ts - (ts - t0i) * rexp (-d / taui))
        t_ss t_0_degree tau
  | none => t_ss

/-- Rational mirror of `_evaluate_dT` used inside the executable solver model. -/
def _evaluate_dT_q (rexp : ℚ → ℚ) (V : List CQ) (T I a0 a1 a2 tau : List ℚ)
    (tdpf_delay_s : Option ℚ) (t_0_degree : List ℚ) : List ℚ :=
  List.zipWith (· - ·) (_calc_T_q rexp V I a0 a1 a2 tau tdpf_delay_s t_0_degree) T

/-- Modelled from the spec: the Jacobian assembly kernel
`create_jacobian_matrix` (`pandapower/pf/create_jacobian.py`, a file of this
repository that is not under `src/`) must return "a square sparse real-valued
matrix whose dimension equals the residual length" (spec 4.4): real-power
rows at the `nref` reference buses only under distributed slack, `npv` rows
for voltage-controlled buses, and `2 * npq` rows for load buses.  The entry
values themselves are delegated to the external kernel `entry`. -/
def create_jacobian_matrix (entry : ℕ → ℕ → ℚ) (nref npv npq : ℕ)
    (dist_slack : Bool) : List (List ℚ) :=
  let dim := (if dist_slack then nref else 0) + npv + 2 * npq
  (List.range dim).map (fun r => (List.range dim).map (fun c => entry r c))

/-- Modelled from the spec: the thermal augmentation kernel `create_J_tdpf`
(`pandapower/tdpf/create_jacobian_tdpf.py`, not under `src/`) must "accept
the previously built Jacobian and return it extended" with the thermal
partial derivatives (spec 4.4), one extra row and column per branch, keeping
the matrix square with dimension equal to the extended residual length.  The
new entry values are delegated to the external kernel `entry`. -/
def create_J_tdpf (entry : ℕ → ℕ → ℚ) (nbranch : ℕ) (J : List (List ℚ)) :
    List (List ℚ) :=
  let dim := J.length + nbranch
  (List.range dim).map (fun r => (List.range dim).map (fun c =>
    if r < J.length ∧ c < J.length then (J.getD r []).getD c 0 else entry r c))

/-- Residual assembly as performed before the loop (lines 133-146) and at the
end of every iteration (lines 198-206): the power-mismatch rows, with the
thermal rows `F_t / T_base` appended when thermal coupling is active (`T` is
the scaled temperature unknown; `_evaluate_dT` receives it times `T_base`). -/
def computeResidual (rexp : ℚ → ℚ) (Ybus : List (List CQ)) (V Sbus : List CQ)
    (ref pv pq : List ℕ) (slack_weights : List ℚ) (dist_slack : Bool) (slack : ℚ)
    (tdpf : Bool) (T I a0 a1 a2 tau : List ℚ) (tdpf_delay_s : Option ℚ)
    (T0 : List ℚ) : List ℚ :=
  let F := _evaluate_Fx Ybus V Sbus ref pv pq slack_weights dist_slack slack
  if tdpf then
    F ++ (_evaluate_dT_q rexp V (T.map (· * T_base)) I a0 a1 a2 tau
      tdpf_delay_s T0).map (· / T_base)
  else F

/-- The mutable state threaded through the Newton loop. -/
structure PFState where
  V : List CQ
  Va : List ℚ
  Vm : List ℚ
  slack : ℚ
  T : List ℚ
  Sbus : List CQ
  Ybus : List (List CQ)
  Yf : List (List CQ)
  Yt : List (List CQ)
  branch : List BranchRow
  Sf : List CQ
  St : List CQ
  Ipu : List ℚ
  Ibr : List ℚ
  F : List ℚ
  J : Option (List (List ℚ))
  Vm_it : Option (List (List ℚ))
  Va_it : Option (List (List ℚ))

/-- The loop-invariant context computed by the initialization (index sets
after repartition, category counts, slack weights, thermal constants). -/
structure LoopCtx where
  ext : Externals
  opts : Options
  baseMVA : ℚ
  bus : List BusRow
  gen : List GenRow
  ref : List ℕ
  pv : List ℕ
  pq : List ℕ
  slack_weights : List ℚ
  nref : ℕ
  npv : ℕ
  npq : ℕ
  T0 : List ℚ
  r_ref_pu : List ℚ
  i_base_a : List ℚ
  alpha : List ℚ
  a0 : List ℚ
  a1 : List ℚ
  a2 : List ℚ
  tau : List ℚ

/-- One Newton iteration: the loop body of `newtonpf.py` (lines 156-206). -/
def newtonpfBody (c : LoopCtx) (s : PFState) : PFState :=
  let branch1 := if c.opts.tdpf then
      List.zipWith (fun (b : BranchRow) rat => { b with br_r := rat }) s.branch
        (List.zipWith3 (fun rr al t => rr * (1 + al * (t * T_base - T_ref)))
          c.r_ref_pu c.alpha s.T)
    else s.branch
  let YbYfYt := if c.opts.tdpf then c.ext.makeYbus branch1 else (s.Ybus, s.Yf, s.Yt)
  let Ybus1 := YbYfYt.1
  let Yf1 := YbYfYt.2.1
  let Yt1 := YbYfYt.2.2
  let J0 := create_jacobian_matrix (c.ext.jacEntry Ybus1 s.V) c.nref c.npv c.npq
    c.opts.dist_slack
  let J1 := if c.opts.tdpf then create_J_tdpf (c.ext.jacEntryTdpf s.T) s.branch.length J0
    else J0
  let dx := (c.ext.spsolve J1 s.F).map Neg.neg
  let upd := applyUpdate c.opts.iwamoto c.opts.tdpf c.opts.dist_slack c.npv c.npq c.nref
    c.ext.iwamotoStep c.pv c.pq dx s.Va s.Vm s.slack s.T
  let Va1 := upd.1
  let Vm1 := upd.2.1
  let slack1 := upd.2.2.1
  let T1 := upd.2.2.2
  let V1 := List.zipWith (fun m a => CQ.scale m (c.ext.expi a)) Vm1 Va1
  let Vm2 := V1.map c.ext.cabs
  let Va2 := V1.map c.ext.carg
  let Vmit1 := if c.opts.v_debug then s.Vm_it.map (fun cols => cols ++ [Vm2]) else s.Vm_it
  let Vait1 := if c.opts.v_debug then s.Va_it.map (fun cols => cols ++ [Va2]) else s.Va_it
  let Sbus1 := if c.opts.voltage_depend_loads then c.ext.makeSbus Vm2 else s.Sbus
  let SfSt := if c.opts.tdpf then c.ext.getSflows branch1 Yf1 Yt1 V1 else (s.Sf, s.St)
  let Ibr1 := if c.opts.tdpf then c.ext.calcI SfSt.1 V1 else s.Ibr
  let Ipu1 := if c.opts.tdpf then List.zipWith (· / ·) Ibr1 c.i_base_a else s.Ipu
  let F1 := computeResidual c.ext.rexp Ybus1 V1 Sbus1 c.ref c.pv c.pq c.slack_weights
    c.opts.dist_slack slack1 c.opts.tdpf T1 Ibr1 c.a0 c.a1 c.a2 c.tau
    c.opts.tdpf_delay_s c.T0
  { V := V1, Va := Va2, Vm := Vm2, slack := slack1, T := T1, Sbus := Sbus1,
    Ybus := Ybus1, Yf := Yf1, Yt := Yt1, branch := branch1, Sf := SfSt.1, St := SfSt.2,
    Ipu := Ipu1, Ibr := Ibr1, F := F1, J := some J1, Vm_it := Vmit1, Va_it := Vait1 }

/-- The convergence test of the loop head, on the residual carried in the
state. -/
def newtonpfConv (c : LoopCtx) (s : PFState) : Bool :=
  _check_for_convergence s.F c.opts.tolerance_mva

/-- Initialization of one solve (lines 62-151 of `newtonpf.py`): voltage
split, distributed-slack repartition, category counts, thermal constants,
initial slack guess, initial residual, and — under thermal coupling — the
admittance rebuild and initial temperature guess. -/
def newtonpfInit (ext : Externals) (opts : Options) (ppci : PPCI)
    (Ybus0 : List (List CQ)) (Sbus0 V0 : List CQ) (ref0 pv0 pq0 : List ℕ) :
    LoopCtx × PFState :=
  let slack_weights := ppci.bus.map BusRow.sl_fac
  let Va0 := V0.map ext.carg
  let Vm0 := V0.map ext.cabs
  let rp := partitionSlack opts.dist_slack ref0 pv0
  let ref := rp.1
  let pv := rp.2
  let pq := pq0
  let T0 := ppci.branch.map (fun _ => T_ref)
  let T1 := T0.map (· / T_base)
  let r_ref_pu := ppci.branch.map BranchRow.br_r
  let v_base := ppci.branch.map (fun b => (ppci.bus.getD b.f_bus ⟨0, 0, 0⟩).base_kv)
  let i_base_a := v_base.map (fun vb => ppci.baseMVA / (vb * ext.sqrt3) * 1000)
  let r_ref_ohm_per_m := ppci.branch.map (fun b => b.br_r_ohm_per_km / 1000)
  let alpha := ppci.branch.map (fun _ => (1 : ℚ) / 250)
  let slack0 := (ppci.gen.map GenRow.pg).sum - (ppci.bus.map BusRow.pd).sum
  let aat := ext.a0a1a2tau r_ref_ohm_per_m
  let a0 := aat.1
  let a1 := aat.2.1
  let a2 := aat.2.2.1
  let tau := aat.2.2.2
  let YbYfYt := if opts.tdpf then ext.makeYbus ppci.branch else (Ybus0, [], [])
  let Ybus1 := YbYfYt.1
  let Yf := YbYfYt.2.1
  let Yt := YbYfYt.2.2
  let SfSt := if opts.tdpf then ext.getSflows ppci.branch Yf Yt V0 else ([], [])
  let Ibr0 := if opts.tdpf then ext.calcI SfSt.1 V0 else []
  let Ipu0 := if opts.tdpf then List.zipWith (· / ·) Ibr0 i_base_a else []
  let T2 := if opts.tdpf then
      (_calc_T_q ext.rexp V0 Ibr0 a0 a1 a2 tau opts.tdpf_delay_s T0).map (· / T_base)
    else T1
  let F1 := computeResidual ext.rexp Ybus0 V0 Sbus0 ref pv pq slack_weights
    opts.dist_slack slack0 opts.tdpf T2 Ibr0 a0 a1 a2 tau opts.tdpf_delay_s T0
  let Vmit0 := if opts.v_debug then some [Vm0] else none
  let Vait0 := if opts.v_debug then some [Va0] else none
  ({ ext := ext, opts := opts, baseMVA := ppci.baseMVA, bus := ppci.bus,
     gen := ppci.gen, ref := ref, pv := pv, pq := pq, slack_weights := slack_weights,
     nref := ref.length, npv := pv.length, npq := pq.length, T0 := T0,
     r_ref_pu := r_ref_pu, i_base_a := i_base_a, alpha := alpha,
     a0 := a0, a1 := a1, a2 := a2, tau := tau },
   { V := V0, Va := Va0, Vm := Vm0, slack := slack0, T := T2, Sbus := Sbus0,
     Ybus := Ybus1, Yf := Yf, Yt := Yt, branch := ppci.branch, Sf := SfSt.1,
     St := SfSt.2, Ipu := Ipu0, Ibr := Ibr0, F := F1, J := none,
     Vm_it := Vmit0, Va_it := Vait0 })

/-- The return bundle of `newtonpf` (line 210):
`V, converged, i, J, Vm_it, Va_it, T * T_base`. -/
structure PFResult where
  V : List CQ
  converged : Bool
  iterations : ℕ
  J : Option (List (List ℚ))
  Vm_it : Option (List (List ℚ))
  Va_it : Option (List (List ℚ))
  T_out : List ℚ

/-- Model of `newtonpf` in `newtonpf.py` (lines 27-210): initialization, Newton loop,
and the final return including the temperature scaled back to original units. -/
def newtonpf (ext : Externals) (opts : Options) (ppci : PPCI)
    (Ybus0 : List (List CQ)) (Sbus0 V0 : List CQ) (ref0 pv0 pq0 : List ℕ) :
    PFResult :=
  let cs := newtonpfInit ext opts ppci Ybus0 Sbus0 V0 ref0 pv0 pq0
  let out := newtonLoop (newtonpfBody cs.1) (newtonpfConv cs.1) opts.max_iteration 0 cs.2
  { V := out.1.V, converged := out.2.1, iterations := out.2.2, J := out.1.J,
    Vm_it := out.1.Vm_it, Va_it := out.1.Va_it, T_out := out.1.T.map (· * T_base) }

/-- The loop context built by one solve's initialization. -/
def npfCtx (ext : Externals) (opts : Options) (ppci : PPCI) (Ybus0 : List (List CQ))
    (Sbus0 V0 : List CQ) (ref0 pv0 pq0 : List ℕ) : LoopCtx :=
  (newtonpfInit ext opts ppci Ybus0 Sbus0 V0 ref0 pv0 pq0).1

/-- The initial state built by one solve's initialization. -/
def npfState0 (ext : Externals) (opts : Options) (ppci : PPCI) (Ybus0 : List (List CQ))
    (Sbus0 V0 : List CQ) (ref0 pv0 pq0 : List ℕ) : PFState :=
  (newtonpfInit ext opts ppci Ybus0 Sbus0 V0 ref0 pv0 pq0).2

/-- Concrete external kernels used by the concrete solver runs below. -/
def extW : Externals :=
  ⟨fun _ => ⟨1, 0⟩, fun c => c.re, fun _ => 0, fun _ => 1, 2,
   fun _ _ => [], fun _ _ _ _ => 0, fun _ _ _ => 0, fun _ vm va => (vm, va),
   fun _ => [], fun _ => ([], [], []), fun _ => ([], [], [], []),
   fun _ _ _ _ => ([], []), fun _ _ => []⟩

/-- Two buses (one reference, one voltage-controlled), one generator, one
branch; all static parameters trivial. -/
def ppciW : PPCI := ⟨1, [⟨0, 0, 1⟩, ⟨0, 0, 1⟩], [⟨0⟩], [⟨0, 0, 0⟩]⟩

def YbusW : List (List CQ) := [[0, 0], [0, 0]]

def V0W : List CQ := [⟨1, 0⟩, ⟨1, 0⟩]

def SbusW : List CQ := [0, 0]

def optsW4 : Options := ⟨0, 1, false, false, false, false, false, none⟩

def optsW5 : Options := ⟨1, 5, false, false, false, false, false, none⟩

/-- First element of maximal complex magnitude, modelling Python
`max(V_ikss, key=abs)` (replacement only on strictly greater magnitude, so
the earliest maximum is kept); magnitudes are compared squared. -/
def maxByAbs (l : List CQ) : CQ :=
  l.foldl (fun best x => if best.absSq < x.absSq then x else best) (l.headD 0)

/-- Squared magnitude threshold modelling the `1e-10` clamp of
`currents.py` (entries with `abs < 1e-10` are zeroed). -/
def sc_eps_sq : ℚ := (1 / 10 ^ 10) ^ 2

/-- The fault-voltage column selection and single-fault-bus voltage-sign
correction of `_calc_branch_currents` (`currents.py`, lines 247-255), on the
precomputed-inverse (`inverse_y`) path: select the fault-bus columns
`V_ikss[:, bus_idx]`; when `len(bus_idx) == 1`, replace the matrix (a single
column) by `-(V_ikss - max(V_ikss, key=abs))` and then zero every entry of
magnitude below `1e-10`. -/
def calc_branch_currents_V (Vfull : List (List CQ)) (bus_idx : List ℕ) :
    List (List CQ) :=
  let Vsel := bus_idx.map (fun j => Vfull.getD j [])
  if bus_idx.length = 1 then
    Vsel.map (fun col =>
      let m := maxByAbs col
      (col.map (fun v => -(v - m))).map (fun v => if v.absSq < sc_eps_sq then 0 else v))
  else Vsel

/-- The correction as the claim words it, in one pass per entry: negate the
deviation from the maximum-magnitude entry, then zero the result if its
magnitude falls below the `1e-10` threshold. -/
def signCorrection (col : List CQ) : List CQ :=
  col.map (fun v =>
    if (-(v - maxByAbs col)).absSq < sc_eps_sq then 0 else -(v - maxByAbs col))

theorem getD_map_lt {α β : Type} (f : α → β) (l : List α) (i : ℕ) (d' : β) (d : α)
    (hi : i < l.length) : (l.map f).getD i d' = f (l.getD i d) := by
  induction l generalizing i with
  | nil => simp at hi
  | cons a l ih =>
    cases i with
    | zero => rfl
    | succ j => exact ih j (Nat.lt_of_succ_lt_succ hi)

theorem getD_zipWith_lt {α β γ : Type} (f : α → β → γ) (as : List α) (bs : List β)
    (i : ℕ) (d : γ) (da : α) (db : β) (ha : i < as.length) (hb : i < bs.length) :
    (List.zipWith f as bs).getD i d = f (as.getD i da) (bs.getD i db) := by
  induction as generalizing bs i with
  | nil => simp at ha
  | cons a as ih =>
    cases bs with
    | nil => simp at hb
    | cons b bs =>
      cases i with
      | zero => rfl
      | succ j =>
        exact ih bs j (Nat.lt_of_succ_lt_succ ha) (Nat.lt_of_succ_lt_succ hb)

theorem mis_getD_eq_misAt (Ybus : List (List CQ)) (V Sbus : List CQ)
    (slack_weights : List ℚ) (slack : ℚ) (i : ℕ)
    (hY : Ybus.length = V.length) (hS : Sbus.length = V.length)
    (hw : slack_weights.length = V.length) (hi : i < V.length) :
    (List.zipWith (· + ·)
      (List.zipWith (· - ·) (List.zipWith (· * ·) V ((matVec Ybus V).map CQ.conj)) Sbus)
      (slack_weights.map (fun wi => CQ.ofRat (wi * slack)))).getD i 0
      = misAt Ybus V Sbus slack_weights true slack i := by
  have hmv : (matVec Ybus V).length = V.length := by simp [matVec, hY]
  have h1 : i < (List.zipWith (· * ·) V ((matVec Ybus V).map CQ.conj)).length := by
    simp [List.length_zipWith, hmv, hi]
  have h2 : i < (List.zipWith (· - ·)
      (List.zipWith (· * ·) V ((matVec Ybus V).map CQ.conj)) Sbus).length := by
    simp [List.length_zipWith, hmv, hi, hS]
  rw [getD_zipWith_lt _ _ _ _ _ 0 0 h2 (by simp [hw, hi]),
    getD_zipWith_lt _ _ _ _ _ 0 0 h1 (by simp [hS, hi]),
    getD_zipWith_lt _ _ _ _ _ 0 0 (by simpa using hi) (by simp [hmv, hi]),
    getD_map_lt _ _ _ _ 0 (by simp [hmv, hi]),
    getD_map_lt _ _ _ _ 0 (by simp [hw, hi])]
  simp only [matVec]
  rw [getD_map_lt _ _ _ _ [] (by simp [hY, hi])]
  rfl

theorem mis_getD_eq_misAt_nods (Ybus : List (List CQ)) (V Sbus : List CQ)
    (slack_weights : List ℚ) (slack : ℚ) (i : ℕ)
    (hY : Ybus.length = V.length) (hS : Sbus.length = V.length) (hi : i < V.length) :
    (List.zipWith (· - ·) (List.zipWith (· * ·) V ((matVec Ybus V).map CQ.conj)) Sbus).getD i 0
      = misAt Ybus V Sbus slack_weights false slack i := by
  have hmv : (matVec Ybus V).length = V.length := by simp [matVec, hY]
  have h1 : i < (List.zipWith (· * ·) V ((matVec Ybus V).map CQ.conj)).length := by
    simp [List.length_zipWith, hmv, hi]
  rw [getD_zipWith_lt _ _ _ _ _ 0 0 h1 (by simp [hS, hi]),
    getD_zipWith_lt _ _ _ _ _ 0 0 (by simpa using hi) (by simp [hmv, hi]),
    getD_map_lt _ _ _ _ 0 (by simp [hmv, hi])]
  simp only [matVec]
  rw [getD_map_lt _ _ _ _ [] (by simp [hY, hi])]
  rfl

/-- Claim C1: the mismatch evaluator computes the per-bus complex mismatch as
`V` element-wise times `conj(Y*V)` minus `S`; under distributed slack it first
adds `slack_weight_i * slack` to every bus's mismatch, and the residual
extracts the real part at reference buses (distributed-slack case only) and
voltage-controlled buses, and both real and imaginary parts at load buses,
in that fixed order. -/
theorem C1_mismatch_evaluator (Ybus : List (List CQ)) (V Sbus : List CQ)
    (ref pv pq : List ℕ) (slack_weights : List ℚ) (dist_slack : Bool) (slack : ℚ)
    (hY : Ybus.length = V.length) (hS : Sbus.length = V.length)
    (hw : slack_weights.length = V.length)
    (href : ∀ i ∈ ref, i < V.length) (hpv : ∀ i ∈ pv, i < V.length)
    (hpq : ∀ i ∈ pq, i < V.length) :
    _evaluate_Fx Ybus V Sbus ref pv pq slack_weights dist_slack slack =
      (if dist_slack then
          ref.map (fun i => (misAt Ybus V Sbus slack_weights dist_slack slack i).re)
        else []) ++
      pv.map (fun i => (misAt Ybus V Sbus slack_weights dist_slack slack i).re) ++
      pq.map (fun i => (misAt Ybus V Sbus slack_weights dist_slack slack i).re) ++
      pq.map (fun i => (misAt Ybus V Sbus slack_weights dist_slack slack i).im) := by
  cases dist_slack with
  | false =>
    simp only [_evaluate_Fx, Bool.false_eq_true, if_false, List.nil_append]
    refine congrArg₂ _ (congrArg₂ _ ?_ ?_) ?_ <;>
      refine List.map_congr_left (fun i hi => ?_)
    · rw [getC, mis_getD_eq_misAt_nods Ybus V Sbus slack_weights slack i hY hS (hpv i hi)]
    · rw [getC, mis_getD_eq_misAt_nods Ybus V Sbus slack_weights slack i hY hS (hpq i hi)]
    · rw [getC, mis_getD_eq_misAt_nods Ybus V Sbus slack_weights slack i hY hS (hpq i hi)]
  | true =>
    simp only [_evaluate_Fx, if_true]
    refine congrArg₂ _ (congrArg₂ _ (congrArg₂ _ ?_ ?_) ?_) ?_ <;>
      refine List.map_congr_left (fun i hi => ?_)
    · rw [getC, mis_getD_eq_misAt Ybus V Sbus slack_weights slack i hY hS hw (href i hi)]
    · rw [getC, mis_getD_eq_misAt Ybus V Sbus slack_weights slack i hY hS hw (hpv i hi)]
    · rw [getC, mis_getD_eq_misAt Ybus V Sbus slack_weights slack i hY hS hw (hpq i hi)]
    · rw [getC, mis_getD_eq_misAt Ybus V Sbus slack_weights slack i hY hS hw (hpq i hi)]

theorem C1_mismatch_evaluator_witness :
    (([[(⟨1, 0⟩ : CQ)]] : List (List CQ)).length = [(⟨2, 1⟩ : CQ)].length ∧
      ∀ i ∈ [0], i < [(⟨2, 1⟩ : CQ)].length) ∧
    _evaluate_Fx [[(⟨1, 0⟩ : CQ)]] [⟨2, 1⟩] [⟨1, 1⟩] [0] [] [] [1] true 3 =
      (if true then
          [0].map (fun i => (misAt [[(⟨1, 0⟩ : CQ)]] [⟨2, 1⟩] [⟨1, 1⟩] [1] true 3 i).re)
        else []) ++
      List.map (fun i => (misAt [[(⟨1, 0⟩ : CQ)]] [⟨2, 1⟩] [⟨1, 1⟩] [1] true 3 i).re) [] ++
      List.map (fun i => (misAt [[(⟨1, 0⟩ : CQ)]] [⟨2, 1⟩] [⟨1, 1⟩] [1] true 3 i).re) [] ++
      List.map (fun i => (misAt [[(⟨1, 0⟩ : CQ)]] [⟨2, 1⟩] [⟨1, 1⟩] [1] true 3 i).im) [] :=
  ⟨⟨by decide, by decide⟩,
    C1_mismatch_evaluator [[⟨1, 0⟩]] [⟨2, 1⟩] [⟨1, 1⟩] [0] [] [] [1] true 3
      (by decide) (by decide) (by decide) (by decide) (by decide) (by decide)⟩

/-- Claim C7, counterexample: at the magnitude/angle pair `(-1, 0)` the
recompose operation returns magnitude `1`, not the input magnitude `-1`
(this wrap-around of a negative magnitude is exactly why the source
re-derives `Vm`/`Va` after each step). -/
theorem C7_recompose_counterexample : (recompose (-1) 0).1 = 1 ∧ (1 : ℝ) ≠ -1 := by
  constructor
  · show Complex.abs _ = 1
    simp
  · norm_num

/-- Claim C7 (amended): for a pair with strictly positive magnitude, the
recompose operation returns the same magnitude and an angle equal to the
input angle modulo `2 * π`. -/
theorem C7_recompose_roundtrip (Vm Va : ℝ) (hVm : 0 < Vm) :
    (recompose Vm Va).1 = Vm ∧ ∃ k : ℤ, (recompose Vm Va).2 - Va = 2 * Real.pi * k := by
  constructor
  · show Complex.abs ((Vm : ℂ) * Complex.exp (Complex.I * (Va : ℂ))) = Vm
    rw [map_mul, mul_comm Complex.I, Complex.abs_exp_ofReal_mul_I, mul_one,
      Complex.abs_ofReal, abs_of_pos hVm]
  · refine ⟨⌊(Real.pi - Va) / (2 * Real.pi)⌋, ?_⟩
    show Complex.arg ((Vm : ℂ) * Complex.exp (Complex.I * (Va : ℂ))) - Va = _
    rw [mul_comm Complex.I, Complex.exp_mul_I]
    exact_mod_cast Complex.arg_mul_cos_add_sin_mul_I_sub hVm Va

theorem C7_recompose_roundtrip_witness :
    (0 : ℝ) < 1 ∧ ((recompose 1 0).1 = 1 ∧
      ∃ k : ℤ, (recompose 1 0).2 - 0 = 2 * Real.pi * k) :=
  ⟨by norm_num, C7_recompose_roundtrip 1 0 (by norm_num)⟩

/-- Claim C8: when thermal coupling is active, the rows appended to the
residual equal, per branch, the heat-balance temperature (steady-state when no
transient delay is given, else the transient value) minus the current
temperature, divided by the same base constant `T_base = 100` that scales the
temperature unknowns of the state vector. -/
theorem C8_thermal_rows (bs : List ThermalBranch) (V : List ℂ) (delay : Option ℝ) :
    thermalRows V (bs.map ThermalBranch.temp) (bs.map ThermalBranch.cur)
      (bs.map ThermalBranch.a0) (bs.map ThermalBranch.a1) (bs.map ThermalBranch.a2)
      (bs.map ThermalBranch.tau) delay (bs.map ThermalBranch.t0) =
    bs.map (fun b =>
      (heatBalanceTemp b.a0 b.a1 b.a2 b.tau b.t0 b.cur delay - b.temp) / (T_base : ℚ)) := by
  cases delay with
  | none =>
    induction bs with
    | nil => rfl
    | cons b bs ih =>
      simp only [thermalRows, _evaluate_dT, _calc_T, heatBalanceTemp, List.map_cons,
        List.zipWith_cons_cons, List.cons.injEq] at ih ⊢
      exact ⟨trivial, ih⟩
  | some d =>
    induction bs with
    | nil => rfl
    | cons b bs ih =>
      simp only [thermalRows, _evaluate_dT, _calc_T, heatBalanceTemp, List.map_cons,
        List.zipWith_cons_cons, List.zipWith3, List.cons.injEq] at ih ⊢
      exact ⟨trivial, ih⟩

/-- Claim C6: if distributed slack is requested and more than one reference
bus exists, all reference buses except the first are prepended to the
voltage-controlled set and the reference set is reduced to exactly its first
bus; otherwise both category sets are left unchanged. -/
theorem C6_partition (dist_slack : Bool) (ref pv : List ℕ) :
    (dist_slack = true → 1 < ref.length →
      partitionSlack dist_slack ref pv = ([ref.headD 0], ref.tail ++ pv)) ∧
    (dist_slack = false ∨ ref.length ≤ 1 →
      partitionSlack dist_slack ref pv = (ref, pv)) := by
  constructor
  · intro hds hlen
    cases ref with
    | nil => simp at hlen
    | cons r rs => simp [partitionSlack, hds, hlen]
  · intro h
    rcases h with h | h
    · simp [partitionSlack, h]
    · have : ¬(dist_slack = true ∧ 1 < ref.length) := by
        rintro ⟨-, hlen⟩
        omega
      simp [partitionSlack, if_neg this]

theorem C6_partition_witness :
    partitionSlack true [7, 8, 9] [3] = ([7], [8, 9, 3]) ∧
    partitionSlack false [7, 8, 9] [3] = ([7, 8, 9], [3]) :=
  ⟨(C6_partition true [7, 8, 9] [3]).1 rfl (by decide),
    (C6_partition false [7, 8, 9] [3]).2 (Or.inl rfl)⟩

/-- Claim C3, counterexample: with the acceleration step configured and
thermal coupling active (`iwamoto = true`, `tdpf = true`), the plain
segment-wise update is not applied — the angle of the single
voltage-controlled bus stays `0` although the solved step carries an angle
delta `1` for it and the claim requires the plain update in this
configuration. -/
theorem C3_update_counterexample :
    (applyUpdate true true false 1 0 1 (fun _ vm va => (vm, va))
        [0] [] [1] [0] [1] 0 []).1 = [0] ∧
    (plainUpdate 1 0 [0] [] [1] [0] [1]).1 = [1] ∧
    ([(0 : ℚ)] : List ℚ) ≠ [1] := by
  refine ⟨by simp [applyUpdate], ?_, by norm_num⟩
  simp [plainUpdate, numpySetAdd, arrSlice]

theorem numpySetAdd_nil_vals (xs : List ℚ) (idx : List ℕ) :
    numpySetAdd xs idx [] = xs := by
  cases idx <;> rfl

/-- Claim C3 (amended): the guarded update of the source coincides, for every
configuration and input, with the case analysis of `applyUpdate_spec`: plain
segment-wise update when acceleration is off, accelerated multiplier step when
acceleration is on and thermal coupling is off, and no voltage update at all
when acceleration and thermal coupling are both on. -/
theorem C3_update_amended (iwamoto tdpf dist_slack : Bool) (npv npq nref : ℕ)
    (iwStep : List ℚ → List ℚ → List ℚ → List ℚ × List ℚ)
    (pv pq : List ℕ) (dx Va Vm : List ℚ) (slack : ℚ) (T : List ℚ) :
    applyUpdate iwamoto tdpf dist_slack npv npq nref iwStep pv pq dx Va Vm slack T =
      applyUpdate_spec iwamoto tdpf dist_slack npv npq nref iwStep pv pq dx Va Vm slack T := by
  cases iwamoto with
  | true =>
    cases tdpf <;>
      simp [applyUpdate, applyUpdate_spec]
  | false =>
    have hslice : ∀ a : ℕ, arrSlice dx a a = [] := by
      intro a
      simp [arrSlice]
    cases hnpv : npv with
    | zero =>
      cases hnpq : npq with
      | zero =>
        simp [applyUpdate, applyUpdate_spec, plainUpdate, hslice, numpySetAdd_nil_vals]
      | succ m =>
        simp [applyUpdate, applyUpdate_spec, plainUpdate, hslice, numpySetAdd_nil_vals]
    | succ n =>
      cases hnpq : npq with
      | zero =>
        simp [applyUpdate, applyUpdate_spec, plainUpdate, hslice, numpySetAdd_nil_vals]
      | succ m =>
        simp [applyUpdate, applyUpdate_spec, plainUpdate]

theorem newtonLoop_converged {σ : Type} (body : σ → σ) (conv : σ → Bool)
    (fuel i : ℕ) (s : σ) (h : conv s = true) :
    newtonLoop body conv fuel i s = (s, true, i) := by
  cases fuel <;> simp [newtonLoop, h]

theorem newtonLoop_exhaust {σ : Type} (body : σ → σ) (conv : σ → Bool) :
    ∀ (fuel i : ℕ) (s : σ), (∀ k ≤ fuel, conv (body^[k] s) = false) →
      newtonLoop body conv fuel i s = (body^[fuel] s, false, i + fuel) := by
  intro fuel
  induction fuel with
  | zero =>
    intro i s h
    have h0 := h 0 (Nat.le_refl 0)
    simp only [Function.iterate_zero, id] at h0 ⊢
    simp [newtonLoop, h0]
  | succ n ih =>
    intro i s h
    have h0 := h 0 (Nat.zero_le _)
    simp only [Function.iterate_zero, id] at h0
    have hrest : ∀ k ≤ n, conv (body^[k] (body s)) = false := by
      intro k hk
      have := h (k + 1) (Nat.succ_le_succ hk)
      simpa [Function.iterate_succ_apply] using this
    rw [newtonLoop, if_neg (by simp [h0]), ih (i + 1) (body s) hrest]
    refine congrArg₂ _ ?_ (by simp [Nat.add_assoc, Nat.add_comm 1 n])
    simp [Function.iterate_succ_apply]

theorem newtonLoop_preserves {σ τ : Type} (body : σ → σ) (conv : σ → Bool)
    (g : σ → τ) (hg : ∀ s, g (body s) = g s) :
    ∀ (fuel i : ℕ) (s : σ), g (newtonLoop body conv fuel i s).1 = g s := by
  intro fuel
  induction fuel with
  | zero =>
    intro i s
    by_cases h : conv s = true <;> simp [newtonLoop, h]
  | succ n ih =>
    intro i s
    by_cases h : conv s = true
    · simp [newtonLoop, h]
    · rw [newtonLoop, if_neg (by simp [h]), ih, hg]

theorem CQ.re_zero : (0 : CQ).re = 0 := rfl

theorem CQ.im_zero : (0 : CQ).im = 0 := rfl

theorem CQ.re_add (a b : CQ) : (a + b).re = a.re + b.re := rfl

theorem CQ.im_add (a b : CQ) : (a + b).im = a.im + b.im := rfl

theorem CQ.re_sub (a b : CQ) : (a - b).re = a.re - b.re := rfl

theorem CQ.im_sub (a b : CQ) : (a - b).im = a.im - b.im := rfl

theorem CQ.re_mul (a b : CQ) : (a * b).re = a.re * b.re - a.im * b.im := rfl

theorem CQ.im_mul (a b : CQ) : (a * b).im = a.re * b.im + a.im * b.re := rfl

theorem CQ.re_conj (a : CQ) : (CQ.conj a).re = a.re := rfl

theorem CQ.im_conj (a : CQ) : (CQ.conj a).im = -a.im := rfl

theorem CQ.re_mk (a b : ℚ) : (⟨a, b⟩ : CQ).re = a := rfl

theorem CQ.im_mk (a b : ℚ) : (⟨a, b⟩ : CQ).im = b := rfl

theorem CQ.zero_mk : (0 : CQ) = ⟨0, 0⟩ := rfl

theorem CQ.add_mk (a b c d : ℚ) : (⟨a, b⟩ : CQ) + ⟨c, d⟩ = ⟨a + c, b + d⟩ := rfl

theorem CQ.sub_mk (a b c d : ℚ) : (⟨a, b⟩ : CQ) - ⟨c, d⟩ = ⟨a - c, b - d⟩ := rfl

theorem CQ.mul_mk (a b c d : ℚ) :
    (⟨a, b⟩ : CQ) * ⟨c, d⟩ = ⟨a * c - b * d, a * d + b * c⟩ := rfl

theorem CQ.neg_mk (a b : ℚ) : -(⟨a, b⟩ : CQ) = ⟨-a, -b⟩ := rfl

theorem length_zipWith3 {α β γ δ : Type} (f : α → β → γ → δ) :
    ∀ (as : List α) (bs : List β) (cs : List γ),
      (List.zipWith3 f as bs cs).length = min as.length (min bs.length cs.length)
  | [], _, _ => by simp [List.zipWith3]
  | _ :: _, [], _ => by simp [List.zipWith3]
  | _ :: _, _ :: _, [] => by simp [List.zipWith3]
  | a :: as, b :: bs, c :: cs => by
    simp [List.zipWith3, length_zipWith3 f as bs cs]
    omega

theorem length_evaluate_Fx (Ybus : List (List CQ)) (V Sbus : List CQ)
    (ref pv pq : List ℕ) (w : List ℚ) (ds : Bool) (slack : ℚ) :
    (_evaluate_Fx Ybus V Sbus ref pv pq w ds slack).length =
      (if ds then ref.length else 0) + pv.length + 2 * pq.length := by
  cases ds <;> simp [_evaluate_Fx] <;> omega

theorem length_calc_T_q (rexp : ℚ → ℚ) (V : List CQ) (I a0 a1 a2 tau : List ℚ)
    (delay : Option ℚ) (T0 : List ℚ) (n : ℕ)
    (hI : I.length = n) (ha0 : a0.length = n) (ha1 : a1.length = n)
    (ha2 : a2.length = n) (htau : tau.length = n) (hT0 : T0.length = n) :
    (_calc_T_q rexp V I a0 a1 a2 tau delay T0).length = n := by
  cases delay <;>
    simp [_calc_T_q, length_zipWith3, List.length_zipWith, hI, ha0, ha1, ha2, htau, hT0]

theorem length_evaluate_dT_q (rexp : ℚ → ℚ) (V : List CQ) (T I a0 a1 a2 tau : List ℚ)
    (delay : Option ℚ) (T0 : List ℚ) (n : ℕ)
    (hT : T.length = n) (hI : I.length = n) (ha0 : a0.length = n) (ha1 : a1.length = n)
    (ha2 : a2.length = n) (htau : tau.length = n) (hT0 : T0.length = n) :
    (_evaluate_dT_q rexp V T I a0 a1 a2 tau delay T0).length = n := by
  simp [_evaluate_dT_q, List.length_zipWith,
    length_calc_T_q rexp V I a0 a1 a2 tau delay T0 n hI ha0 ha1 ha2 htau hT0, hT]

/-- Claim C2: the residual built by the mismatch evaluator, with the thermal
rows appended when thermal coupling is on, has length
`npv + 2*npq (+ 1 under distributed slack) (+ nbranch under thermal
coupling)`; and this length equals the dimension of the (spec-modelled)
Jacobian on both axes. -/
theorem C2_residual_jacobian_dimensions (rexp : ℚ → ℚ) (Ybus : List (List CQ))
    (V Sbus : List CQ) (ref pv pq : List ℕ) (w : List ℚ) (ds : Bool) (slack : ℚ)
    (tdpf : Bool) (T I a0 a1 a2 tau : List ℚ) (delay : Option ℚ) (T0 : List ℚ)
    (entry entryT : ℕ → ℕ → ℚ) (n : ℕ)
    (hds : ds = true → ref.length = 1)
    (hT : T.length = n) (hI : I.length = n) (ha0 : a0.length = n)
    (ha1 : a1.length = n) (ha2 : a2.length = n) (htau : tau.length = n)
    (hT0 : T0.length = n) :
    (computeResidual rexp Ybus V Sbus ref pv pq w ds slack tdpf T I a0 a1 a2 tau
        delay T0).length =
      pv.length + 2 * pq.length + (if ds then 1 else 0) + (if tdpf then n else 0) ∧
    (if tdpf then
        create_J_tdpf entryT n (create_jacobian_matrix entry ref.length pv.length pq.length ds)
      else
        create_jacobian_matrix entry ref.length pv.length pq.length ds).length =
      pv.length + 2 * pq.length + (if ds then 1 else 0) + (if tdpf then n else 0) ∧
    ∀ row ∈ (if tdpf then
        create_J_tdpf entryT n (create_jacobian_matrix entry ref.length pv.length pq.length ds)
      else
        create_jacobian_matrix entry ref.length pv.length pq.length ds),
      row.length =
        pv.length + 2 * pq.length + (if ds then 1 else 0) + (if tdpf then n else 0) := by
  have hrows : (_evaluate_dT_q rexp V (T.map (· * T_base)) I a0 a1 a2 tau delay T0).length = n :=
    length_evaluate_dT_q rexp V _ I a0 a1 a2 tau delay T0 n (by simp [hT]) hI ha0 ha1 ha2 htau hT0
  have hF : (computeResidual rexp Ybus V Sbus ref pv pq w ds slack tdpf T I a0 a1 a2 tau
      delay T0).length =
      pv.length + 2 * pq.length + (if ds then 1 else 0) + (if tdpf then n else 0) := by
    cases htdpf : tdpf with
    | false =>
      simp [computeResidual, length_evaluate_Fx]
      cases hds2 : ds with
      | false => simp
      | true => simp [hds hds2] <;> omega
    | true =>
      simp [computeResidual, length_evaluate_Fx, hrows]
      cases hds2 : ds with
      | false => simp <;> omega
      | true => simp [hds hds2] <;> omega
  refine ⟨hF, ?_, ?_⟩
  · cases htdpf : tdpf with
    | false =>
      simp [create_jacobian_matrix]
      cases hds2 : ds with
      | false => simp <;> omega
      | true => simp [hds hds2] <;> omega
    | true =>
      simp [create_J_tdpf, create_jacobian_matrix]
      cases hds2 : ds with
      | false => simp <;> omega
      | true => simp [hds hds2] <;> omega
  · intro row hrow
    cases htdpf : tdpf with
    | false =>
      simp only [htdpf, if_false, Bool.false_eq_true] at hrow ⊢
      simp [create_jacobian_matrix, List.mem_map] at hrow
      obtain ⟨r, -, hr⟩ := hrow
      subst hr
      cases hds2 : ds with
      | false => simp <;> omega
      | true => simp [hds hds2] <;> omega
    | true =>
      simp only [htdpf, if_true] at hrow ⊢
      simp [create_J_tdpf, create_jacobian_matrix, List.mem_map] at hrow
      obtain ⟨r, -, hr⟩ := hrow
      subst hr
      cases hds2 : ds with
      | false => simp <;> omega
      | true => simp [hds hds2] <;> omega

theorem C2_residual_jacobian_dimensions_witness :
    (true = true → ([0] : List ℕ).length = 1) ∧
    ((computeResidual (fun q => q) [[0, 0, 0], [0, 0, 0], [0, 0, 0]]
        [⟨1, 0⟩, ⟨1, 0⟩, ⟨1, 0⟩] [0, 0, 0] [0] [1] [2] [1, 1, 1] true 0 true
        [1] [1] [1] [1] [1] [1] none [1]).length =
      ([1] : List ℕ).length + 2 * ([2] : List ℕ).length + (if true then 1 else 0) +
        (if true then 1 else 0) ∧
    (if true then
        create_J_tdpf (fun _ _ => 0) 1
          (create_jacobian_matrix (fun _ _ => 0) ([0] : List ℕ).length
            ([1] : List ℕ).length ([2] : List ℕ).length true)
      else
        create_jacobian_matrix (fun _ _ => 0) ([0] : List ℕ).length
          ([1] : List ℕ).length ([2] : List ℕ).length true).length =
      ([1] : List ℕ).length + 2 * ([2] : List ℕ).length + (if true then 1 else 0) +
        (if true then 1 else 0) ∧
    ∀ row ∈ (if true then
        create_J_tdpf (fun _ _ => 0) 1
          (create_jacobian_matrix (fun _ _ => 0) ([0] : List ℕ).length
            ([1] : List ℕ).length ([2] : List ℕ).length true)
      else
        create_jacobian_matrix (fun _ _ => 0) ([0] : List ℕ).length
          ([1] : List ℕ).length ([2] : List ℕ).length true),
      row.length =
        ([1] : List ℕ).length + 2 * ([2] : List ℕ).length + (if true then 1 else 0) +
          (if true then 1 else 0)) :=
  ⟨fun _ => rfl,
    C2_residual_jacobian_dimensions (fun q => q) [[0, 0, 0], [0, 0, 0], [0, 0, 0]]
      [⟨1, 0⟩, ⟨1, 0⟩, ⟨1, 0⟩] [0, 0, 0] [0] [1] [2] [1, 1, 1] true 0 true
      [1] [1] [1] [1] [1] [1] none [1] (fun _ _ => 0) (fun _ _ => 0) 1
      (fun _ => rfl) rfl rfl rfl rfl rfl rfl rfl⟩

theorem newtonpf_unfold (ext : Externals) (opts : Options) (ppci : PPCI)
    (Ybus0 : List (List CQ)) (Sbus0 V0 : List CQ) (ref0 pv0 pq0 : List ℕ) :
    newtonpf ext opts ppci Ybus0 Sbus0 V0 ref0 pv0 pq0 =
      { V := (newtonLoop (newtonpfBody (npfCtx ext opts ppci Ybus0 Sbus0 V0 ref0 pv0 pq0))
          (newtonpfConv (npfCtx ext opts ppci Ybus0 Sbus0 V0 ref0 pv0 pq0))
          opts.max_iteration 0 (npfState0 ext opts ppci Ybus0 Sbus0 V0 ref0 pv0 pq0)).1.V,
        converged := (newtonLoop (newtonpfBody (npfCtx ext opts ppci Ybus0 Sbus0 V0 ref0 pv0 pq0))
          (newtonpfConv (npfCtx ext opts ppci Ybus0 Sbus0 V0 ref0 pv0 pq0))
          opts.max_iteration 0 (npfState0 ext opts ppci Ybus0 Sbus0 V0 ref0 pv0 pq0)).2.1,
        iterations := (newtonLoop (newtonpfBody (npfCtx ext opts ppci Ybus0 Sbus0 V0 ref0 pv0 pq0))
          (newtonpfConv (npfCtx ext opts ppci Ybus0 Sbus0 V0 ref0 pv0 pq0))
          opts.max_iteration 0 (npfState0 ext opts ppci Ybus0 Sbus0 V0 ref0 pv0 pq0)).2.2,
        J := (newtonLoop (newtonpfBody (npfCtx ext opts ppci Ybus0 Sbus0 V0 ref0 pv0 pq0))
          (newtonpfConv (npfCtx ext opts ppci Ybus0 Sbus0 V0 ref0 pv0 pq0))
          opts.max_iteration 0 (npfState0 ext opts ppci Ybus0 Sbus0 V0 ref0 pv0 pq0)).1.J,
        Vm_it := (newtonLoop (newtonpfBody (npfCtx ext opts ppci Ybus0 Sbus0 V0 ref0 pv0 pq0))
          (newtonpfConv (npfCtx ext opts ppci Ybus0 Sbus0 V0 ref0 pv0 pq0))
          opts.max_iteration 0 (npfState0 ext opts ppci Ybus0 Sbus0 V0 ref0 pv0 pq0)).1.Vm_it,
        Va_it := (newtonLoop (newtonpfBody (npfCtx ext opts ppci Ybus0 Sbus0 V0 ref0 pv0 pq0))
          (newtonpfConv (npfCtx ext opts ppci Ybus0 Sbus0 V0 ref0 pv0 pq0))
          opts.max_iteration 0 (npfState0 ext opts ppci Ybus0 Sbus0 V0 ref0 pv0 pq0)).1.Va_it,
        T_out := ((newtonLoop (newtonpfBody (npfCtx ext opts ppci Ybus0 Sbus0 V0 ref0 pv0 pq0))
          (newtonpfConv (npfCtx ext opts ppci Ybus0 Sbus0 V0 ref0 pv0 pq0))
          opts.max_iteration 0 (npfState0 ext opts ppci Ybus0 Sbus0 V0 ref0 pv0 pq0)).1.T).map
          (· * T_base) } := rfl

/-- Claim C5: if the initial voltage guess already makes the residual
infinity norm strictly less than the tolerance, the solver returns
immediately: iteration count 0, convergence flag true, and the voltage
vector unchanged (equal to the initial guess). -/
theorem C5_immediate_return (ext : Externals) (opts : Options) (ppci : PPCI)
    (Ybus0 : List (List CQ)) (Sbus0 V0 : List CQ) (ref0 pv0 pq0 : List ℕ)
    (h : infNorm (npfState0 ext opts ppci Ybus0 Sbus0 V0 ref0 pv0 pq0).F
      < opts.tolerance_mva) :
    (newtonpf ext opts ppci Ybus0 Sbus0 V0 ref0 pv0 pq0).V = V0 ∧
    (newtonpf ext opts ppci Ybus0 Sbus0 V0 ref0 pv0 pq0).converged = true ∧
    (newtonpf ext opts ppci Ybus0 Sbus0 V0 ref0 pv0 pq0).iterations = 0 := by
  have hc : newtonpfConv (npfCtx ext opts ppci Ybus0 Sbus0 V0 ref0 pv0 pq0)
      (npfState0 ext opts ppci Ybus0 Sbus0 V0 ref0 pv0 pq0) = true := by
    have htol : (npfCtx ext opts ppci Ybus0 Sbus0 V0 ref0 pv0 pq0).opts.tolerance_mva
        = opts.tolerance_mva := rfl
    simp only [newtonpfConv, _check_for_convergence, htol]
    exact decide_eq_true h
  refine ⟨?_, ?_, ?_⟩ <;> rw [newtonpf_unfold, newtonLoop_converged _ _ _ _ _ hc] <;> rfl

/-- Claim C4: when no iterate within the iteration cap satisfies the
tolerance, the loop stops at the cap and the solver returns normally with
convergence flag false, iteration count equal to the cap, and the last
computed (non-converged) voltage and temperature state. -/
theorem C4_iteration_cap (ext : Externals) (opts : Options) (ppci : PPCI)
    (Ybus0 : List (List CQ)) (Sbus0 V0 : List CQ) (ref0 pv0 pq0 : List ℕ)
    (h : ∀ k ≤ opts.max_iteration,
      newtonpfConv (npfCtx ext opts ppci Ybus0 Sbus0 V0 ref0 pv0 pq0)
        ((newtonpfBody (npfCtx ext opts ppci Ybus0 Sbus0 V0 ref0 pv0 pq0))^[k]
          (npfState0 ext opts ppci Ybus0 Sbus0 V0 ref0 pv0 pq0)) = false) :
    (newtonpf ext opts ppci Ybus0 Sbus0 V0 ref0 pv0 pq0).converged = false ∧
    (newtonpf ext opts ppci Ybus0 Sbus0 V0 ref0 pv0 pq0).iterations = opts.max_iteration ∧
    (newtonpf ext opts ppci Ybus0 Sbus0 V0 ref0 pv0 pq0).V =
      ((newtonpfBody (npfCtx ext opts ppci Ybus0 Sbus0 V0 ref0 pv0 pq0))^[opts.max_iteration]
        (npfState0 ext opts ppci Ybus0 Sbus0 V0 ref0 pv0 pq0)).V ∧
    (newtonpf ext opts ppci Ybus0 Sbus0 V0 ref0 pv0 pq0).T_out =
      ((newtonpfBody (npfCtx ext opts ppci Ybus0 Sbus0 V0 ref0 pv0 pq0))^[opts.max_iteration]
        (npfState0 ext opts ppci Ybus0 Sbus0 V0 ref0 pv0 pq0)).T.map (· * T_base) := by
  have hl := newtonLoop_exhaust (newtonpfBody (npfCtx ext opts ppci Ybus0 Sbus0 V0 ref0 pv0 pq0))
    (newtonpfConv (npfCtx ext opts ppci Ybus0 Sbus0 V0 ref0 pv0 pq0)) opts.max_iteration 0
    (npfState0 ext opts ppci Ybus0 Sbus0 V0 ref0 pv0 pq0) h
  refine ⟨?_, ?_, ?_, ?_⟩ <;> rw [newtonpf_unfold, hl] <;> simp

theorem C5_immediate_return_witness :
    infNorm (npfState0 extW optsW5 ppciW YbusW SbusW V0W [0] [1] []).F
      < optsW5.tolerance_mva ∧
    ((newtonpf extW optsW5 ppciW YbusW SbusW V0W [0] [1] []).V = V0W ∧
     (newtonpf extW optsW5 ppciW YbusW SbusW V0W [0] [1] []).converged = true ∧
     (newtonpf extW optsW5 ppciW YbusW SbusW V0W [0] [1] []).iterations = 0) := by
  have h : infNorm (npfState0 extW optsW5 ppciW YbusW SbusW V0W [0] [1] []).F
      < optsW5.tolerance_mva := by
    norm_num [npfState0, newtonpfInit, computeResidual, _evaluate_Fx, matVec, dotC,
      getC, infNorm, partitionSlack, extW, optsW5, ppciW, YbusW, SbusW, V0W,
      CQ.re_zero, CQ.im_zero, CQ.re_add, CQ.im_add, CQ.re_sub, CQ.im_sub,
      CQ.re_mul, CQ.im_mul, CQ.re_conj, CQ.im_conj, CQ.re_mk, CQ.im_mk]
  exact ⟨h, C5_immediate_return extW optsW5 ppciW YbusW SbusW V0W [0] [1] [] h⟩

theorem C4_iteration_cap_witness :
    (∀ k ≤ optsW4.max_iteration,
      newtonpfConv (npfCtx extW optsW4 ppciW YbusW SbusW V0W [0] [1] [])
        ((newtonpfBody (npfCtx extW optsW4 ppciW YbusW SbusW V0W [0] [1] []))^[k]
          (npfState0 extW optsW4 ppciW YbusW SbusW V0W [0] [1] [])) = false) ∧
    ((newtonpf extW optsW4 ppciW YbusW SbusW V0W [0] [1] []).converged = false ∧
     (newtonpf extW optsW4 ppciW YbusW SbusW V0W [0] [1] []).iterations =
       optsW4.max_iteration ∧
     (newtonpf extW optsW4 ppciW YbusW SbusW V0W [0] [1] []).V =
       ((newtonpfBody (npfCtx extW optsW4 ppciW YbusW SbusW V0W [0] [1] []))^[optsW4.max_iteration]
         (npfState0 extW optsW4 ppciW YbusW SbusW V0W [0] [1] [])).V ∧
     (newtonpf extW optsW4 ppciW YbusW SbusW V0W [0] [1] []).T_out =
       ((newtonpfBody (npfCtx extW optsW4 ppciW YbusW SbusW V0W [0] [1] []))^[optsW4.max_iteration]
         (npfState0 extW optsW4 ppciW YbusW SbusW V0W [0] [1] [])).T.map (· * T_base)) := by
  have h : ∀ k ≤ optsW4.max_iteration,
      newtonpfConv (npfCtx extW optsW4 ppciW YbusW SbusW V0W [0] [1] [])
        ((newtonpfBody (npfCtx extW optsW4 ppciW YbusW SbusW V0W [0] [1] []))^[k]
          (npfState0 extW optsW4 ppciW YbusW SbusW V0W [0] [1] [])) = false := by
    intro k hk
    have hk1 : k ≤ 1 := hk
    clear hk
    interval_cases k
    · norm_num [newtonpfConv, _check_for_convergence, npfCtx, npfState0, newtonpfInit,
        computeResidual, _evaluate_Fx, matVec, dotC, getC, infNorm, partitionSlack,
        extW, optsW4, ppciW, YbusW, SbusW, V0W,
        CQ.re_zero, CQ.im_zero, CQ.re_add, CQ.im_add, CQ.re_sub, CQ.im_sub,
        CQ.re_mul, CQ.im_mul, CQ.re_conj, CQ.im_conj, CQ.re_mk, CQ.im_mk]
    · norm_num [newtonpfConv, _check_for_convergence, npfCtx, npfState0, newtonpfInit,
        newtonpfBody, applyUpdate, numpySetAdd, arrSlice, create_jacobian_matrix,
        create_J_tdpf, computeResidual, _evaluate_Fx, matVec, dotC, getC, infNorm,
        partitionSlack, CQ.scale, extW, optsW4, ppciW, YbusW, SbusW, V0W,
        CQ.re_zero, CQ.im_zero, CQ.re_add, CQ.im_add, CQ.re_sub, CQ.im_sub,
        CQ.re_mul, CQ.im_mul, CQ.re_conj, CQ.im_conj, CQ.re_mk, CQ.im_mk]
  exact ⟨h, C4_iteration_cap extW optsW4 ppciW YbusW SbusW V0W [0] [1] [] h⟩

theorem newtonLoop_zero {σ : Type} (body : σ → σ) (conv : σ → Bool) (i : ℕ) (s : σ) :
    (newtonLoop body conv 0 i s).1 = s := by
  by_cases h : conv s = true <;> simp [newtonLoop, h]

theorem PFResult.T_out_mk (a : List CQ) (b : Bool) (c : ℕ) (d : Option (List (List ℚ)))
    (e f : Option (List (List ℚ))) (g : List ℚ) :
    (PFResult.mk a b c d e f g).T_out = g := rfl

/-- Claim C9, counterexample: with thermal coupling off, the solver's output
still contains a per-branch temperature vector — the return statement of the
source passes `T * T_base` unconditionally, so the one-branch network yields
the (nonempty) default temperature vector `[20]` even though the claim says
no temperature vector is part of the output in this configuration. -/
theorem C9_output_counterexample :
    (newtonpf extW ⟨1, 0, false, false, false, false, false, none⟩ ppciW YbusW SbusW
      V0W [0] [1] []).T_out = [20] ∧ ([(20 : ℚ)] : List ℚ) ≠ ([] : List ℚ) := by
  constructor
  · rw [newtonpf_unfold, PFResult.T_out_mk,
      show (⟨1, 0, false, false, false, false, false, none⟩ : Options).max_iteration = 0
        from rfl,
      newtonLoop_zero]
    norm_num [npfState0, newtonpfInit, ppciW, T_ref, T_base]
  · simp

/-- Claim C9 (amended): the per-branch temperature vector is part of the
solver's output in every configuration, scaled back to the caller's original
units; when thermal coupling is off it is the untouched initial default
(`T_ref = 20` for every branch), not a converged thermal solution. -/
theorem C9_temperature_always_returned (ext : Externals) (tol : ℚ) (mi : ℕ)
    (iw vdl ds dbg : Bool) (delay : Option ℚ) (ppci : PPCI) (Ybus0 : List (List CQ))
    (Sbus0 V0 : List CQ) (ref0 pv0 pq0 : List ℕ) :
    (newtonpf ext ⟨tol, mi, iw, vdl, ds, dbg, false, delay⟩ ppci Ybus0 Sbus0 V0
      ref0 pv0 pq0).T_out = ppci.branch.map (fun _ => T_ref) := by
  have htd : (npfCtx ext ⟨tol, mi, iw, vdl, ds, dbg, false, delay⟩ ppci Ybus0 Sbus0 V0
      ref0 pv0 pq0).opts.tdpf = false := rfl
  have hT : ∀ s, (newtonpfBody (npfCtx ext ⟨tol, mi, iw, vdl, ds, dbg, false, delay⟩
      ppci Ybus0 Sbus0 V0 ref0 pv0 pq0) s).T = s.T := by
    intro s
    simp [newtonpfBody, applyUpdate, htd]
  have hpres := newtonLoop_preserves
    (newtonpfBody (npfCtx ext ⟨tol, mi, iw, vdl, ds, dbg, false, delay⟩ ppci Ybus0 Sbus0
      V0 ref0 pv0 pq0))
    (newtonpfConv (npfCtx ext ⟨tol, mi, iw, vdl, ds, dbg, false, delay⟩ ppci Ybus0 Sbus0
      V0 ref0 pv0 pq0))
    PFState.T hT mi 0
    (npfState0 ext ⟨tol, mi, iw, vdl, ds, dbg, false, delay⟩ ppci Ybus0 Sbus0 V0 ref0 pv0 pq0)
  rw [newtonpf_unfold, PFResult.T_out_mk,
    show (⟨tol, mi, iw, vdl, ds, dbg, false, delay⟩ : Options).max_iteration = mi from rfl,
    hpres]
  have hs0 : (npfState0 ext ⟨tol, mi, iw, vdl, ds, dbg, false, delay⟩ ppci Ybus0 Sbus0 V0
      ref0 pv0 pq0).T = (ppci.branch.map (fun _ => T_ref)).map (· / T_base) := rfl
  rw [hs0, List.map_map]
  have hid : ((fun x : ℚ => x * T_base) ∘ fun x : ℚ => x / T_base) = fun x : ℚ => x := by
    funext x
    show x / T_base * T_base = x
    norm_num [T_base]
  rw [hid, List.map_id']

/-- Claim C10: on the precomputed-inverse path of the short-circuit
branch-current computation, the voltage-sign correction (negating the
deviation from the maximum-magnitude entry and zeroing entries below
`1e-10`) is applied exactly when the fault-bus index array has length one;
for any other length the selected columns are returned uncorrected. -/
theorem C10_single_fault_correction (Vfull : List (List CQ)) (bus_idx : List ℕ) :
    (bus_idx.length = 1 →
      calc_branch_currents_V Vfull bus_idx =
        (bus_idx.map (fun j => Vfull.getD j [])).map signCorrection) ∧
    (bus_idx.length ≠ 1 →
      calc_branch_currents_V Vfull bus_idx = bus_idx.map (fun j => Vfull.getD j [])) := by
  constructor
  · intro h
    simp only [calc_branch_currents_V, if_pos h, List.map_map]
    rfl
  · intro h
    simp only [calc_branch_currents_V, if_neg h]

theorem C10_single_fault_correction_witness :
    calc_branch_currents_V [[⟨1, 0⟩, ⟨2, 0⟩]] [0] =
      ([0].map (fun j => ([[(⟨1, 0⟩ : CQ), ⟨2, 0⟩]]).getD j [])).map signCorrection ∧
    calc_branch_currents_V [[⟨1, 0⟩, ⟨2, 0⟩]] [0, 1] =
      [0, 1].map (fun j => ([[(⟨1, 0⟩ : CQ), ⟨2, 0⟩]]).getD j []) :=
  ⟨(C10_single_fault_correction [[⟨1, 0⟩, ⟨2, 0⟩]] [0]).1 rfl,
   (C10_single_fault_correction [[⟨1, 0⟩, ⟨2, 0⟩]] [0, 1]).2 (by decide)⟩
